import Mathlib

/-!
Verification development for the aadsstatsscrapper ingestion pipeline.

The definitions below are a shallow embedding of the edge function
`supabase/functions/scrape-event/index.ts` (event discovery, per-match
fetch, record building, upsert persistence, run summary) and of the
leaderboard ordering in `static/js/overlay.js`.  JavaScript numbers that
carry averages are modelled as rationals; JavaScript `x || y` falsiness
on numbers (0 is falsy) and strings ("" is falsy) is modelled explicitly.
HTTP and database effects are modelled by environments that fix, for each
match, the outcome of the roster fetch, the counts fetch, and each upsert
attempt; the persistence store is a list of records with an upsert keyed
on (user_id, event_name, match_id, name).
-/

/-- JavaScript `o || 0` for an optional number field (0 stays 0). -/
def jsOrZero (o : Option ℕ) : ℕ := o.getD 0

/-- JavaScript `o || null` for an optional natural field: absent or 0 becomes null. -/
def jsOrNullN (o : Option ℕ) : Option ℕ :=
  match o with
  | none => none
  | some v => if v = 0 then none else some v

/-- JavaScript `o || null` for an optional rational field: absent or 0 becomes null. -/
def jsOrNullQ (o : Option ℚ) : Option ℚ :=
  match o with
  | none => none
  | some v => if v = 0 then none else some v

/-- JavaScript `o || null` for an optional string field: absent or "" becomes null. -/
def jsOrNullS (o : Option String) : Option String :=
  match o with
  | none => none
  | some v => if v = "" then none else some v

/-- A score-distribution map for one player: numeric round-score key to
occurrence count, as deserialized from the counts page (JS object). -/
abbrev ScoreDist := List (ℕ × ℕ)

/-- Value of the distribution at a key, defaulting to 0 (spec-side reading). -/
def distGet (d : ScoreDist) (k : ℕ) : ℕ := (d.lookup k).getD 0

/-- JavaScript `if (dist[k]) acc += dist[k]` : add the value only when truthy. -/
def addIfSome (acc : ℕ) (o : Option ℕ) : ℕ :=
  match o with
  | none => acc
  | some v => if v = 0 then acc else acc + v

/-- `const count_180s = dist['180'] || 0` from index.ts. -/
def count180s (d : ScoreDist) : ℕ := (d.lookup 180).getD 0

/-- The 140+ tally from index.ts: conditional adds for keys 140, 141, 160,
171, then the 180 count is added on top. -/
def count140plus (d : ScoreDist) : ℕ :=
  addIfSome (addIfSome (addIfSome (addIfSome 0 (d.lookup 140)) (d.lookup 141))
    (d.lookup 160)) (d.lookup 171) + count180s d

/-- `count_100_plus: (dist['100'] || 0) + count_140_plus` from index.ts. -/
def count100plus (d : ScoreDist) : ℕ := (d.lookup 100).getD 0 + count140plus d

/-- One step of `Math.max` accumulation; the accumulator `none` plays the
role of the `-Infinity` that `Math.max()` of no arguments returns. -/
def maxAcc (acc : Option ℕ) (k : ℕ) : Option ℕ :=
  match acc with
  | none => some k
  | some m => some (Nat.max m k)

/-- `Math.max(...Object.keys(dist).map(k => parseInt(k) || 0))` from
index.ts: the maximum of the numeric keys, `none` (JS `-Infinity`,
serialized as null) when the map is empty. -/
def highestScore (d : ScoreDist) : Option ℕ :=
  d.foldl (fun acc kv => maxAcc acc kv.1) none

/-- One entry of the `players` array embedded in the roster page. -/
structure RosterEntry where
  name : String
  total_wins : ℕ
  total_games : ℕ
  average_01 : ℚ
  card_link : Option String
deriving DecidableEq

/-- One entry of the `first_nine` array of the counts page (`{}` when the
array is shorter than the roster). -/
structure FirstNineStats where
  average : Option ℚ
deriving DecidableEq

/-- One entry of the `checkout_stats` array of the counts page. -/
structure CheckoutData where
  efficiency : Option String
  opportunities : Option ℕ
  hit : Option ℕ
  highest : Option ℕ
  average : Option ℚ
deriving DecidableEq

/-- The empty JS object `{}` used when `checkout_stats[i]` is absent. -/
def CheckoutData.empty : CheckoutData := ⟨none, none, none, none, none⟩

/-- The record upserted into `aads_players`, field for field as built in
index.ts lines 176-195. -/
structure StatRecord where
  user_id : String
  name : String
  match_id : String
  event_name : String
  legs_won : ℕ
  legs_played : ℕ
  average : ℚ
  first_nine_avg : Option ℚ
  count_180s : ℕ
  count_140_plus : ℕ
  count_100_plus : ℕ
  highest_score : Option ℕ
  checkout_efficiency : Option String
  checkout_opportunities : ℕ
  checkouts_hit : ℕ
  highest_checkout : Option ℕ
  avg_finish : Option ℚ
  card_link : Option String
deriving DecidableEq

/-- Construction of the per-player record from index.ts lines 159-195. -/
def buildRecord (uid ename mid : String) (p : RosterEntry) (fns : FirstNineStats)
    (cd : CheckoutData) (d : ScoreDist) : StatRecord :=
  { user_id := uid
    name := p.name
    match_id := mid
    event_name := ename
    legs_won := p.total_wins
    legs_played := p.total_games
    average := p.average_01
    first_nine_avg := jsOrNullQ fns.average
    count_180s := count180s d
    count_140_plus := count140plus d
    count_100_plus := count100plus d
    highest_score := highestScore d
    checkout_efficiency := jsOrNullS cd.efficiency
    checkout_opportunities := jsOrZero cd.opportunities
    checkouts_hit := jsOrZero cd.hit
    highest_checkout := jsOrNullN cd.highest
    avg_finish := jsOrNullQ cd.average
    card_link := jsOrNullS p.card_link }

/-- The composite key of the `aads_players_match_unique` index
(`onConflict: 'user_id,event_name,match_id,name'`). -/
def keyOf (r : StatRecord) : String × String × String × String :=
  (r.user_id, r.event_name, r.match_id, r.name)

/-- Keys of a store. -/
def storeKeys (s : List StatRecord) : List (String × String × String × String) :=
  s.map keyOf

/-- Upsert into the keyed store: when a record with the same composite key
exists it is overwritten in place with every field of the new record,
otherwise the new record is inserted. -/
def upsert (s : List StatRecord) (r : StatRecord) : List StatRecord :=
  if ∃ x ∈ s, keyOf x = keyOf r then
    s.map (fun x => if keyOf x = keyOf r then r else x)
  else s ++ [r]

/-- Sequential upserts of a batch of records. -/
def upsertAll (s : List StatRecord) (rs : List StatRecord) : List StatRecord :=
  rs.foldl upsert s

/-- Environment of one match: the outcome of the roster retrieval, the
outcome of the counts retrieval, and which upsert attempts fail (by player
index); an `Except.error` carries the thrown message. -/
structure CountsPayload where
  distribution : List ScoreDist
  first_nine : List FirstNineStats
  checkout_stats : List CheckoutData

structure MatchEnv where
  roster : Except String (List RosterEntry)
  counts : Except String CountsPayload
  persistErr : ℕ → Option String

/-- State threaded through one run: the persistence store, the
`playerSummary` accumulator (name ↦ (match_count, count_180s)), and traces
of the per-match HTTP fetches and of the upsert attempts made. -/
structure MatchState where
  store : List StatRecord
  psum : List (String × ℕ × ℕ)
  fetches : List String
  upserts : List (String × String)
deriving DecidableEq

/-- `playerSummary` update from index.ts lines 209-213. -/
def bumpSummary (ps : List (String × ℕ × ℕ)) (n : String) (c : ℕ) :
    List (String × ℕ × ℕ) :=
  if ∃ e ∈ ps, e.1 = n then
    ps.map (fun e => if e.1 = n then (e.1, e.2.1 + 1, e.2.2 + c) else e)
  else ps ++ [(n, 1, c)]

/-- The per-player loop of index.ts lines 159-214: build the record, attempt
the upsert (a failure throws, aborting the rest of the loop), update the
player summary.  Returns the new state and the thrown message, if any. -/
def processPlayers (uid ename mid : String) (cp : CountsPayload)
    (pErr : ℕ → Option String) : ℕ → List RosterEntry → MatchState →
    MatchState × Option String
  | _, [], st => (st, none)
  | i, p :: rest, st =>
    let rec1 := buildRecord uid ename mid p (cp.first_nine.getD i ⟨none⟩)
      (cp.checkout_stats.getD i CheckoutData.empty) (cp.distribution.getD i [])
    let st1 : MatchState := { st with upserts := st.upserts ++ [(mid, p.name)] }
    match pErr i with
    | some e => (st1, some ("Supabase upsert failed: " ++ e))
    | none =>
      processPlayers uid ename mid cp pErr (i + 1) rest
        { st1 with
          store := upsert st1.store rec1
          psum := bumpSummary st1.psum p.name rec1.count_180s }

/-- The body of the per-match `try` block: fetch the roster page, fetch the
counts page, then run the per-player loop.  An `Except.error` from either
fetch is the thrown message. -/
def matchBody (uid ename mid : String) (env : MatchEnv) (st : MatchState) :
    MatchState × Option String :=
  let st1 : MatchState := { st with fetches := st.fetches ++ ["players/" ++ mid] }
  match env.roster with
  | .error e => (st1, some e)
  | .ok players =>
    let st2 : MatchState := { st1 with fetches := st1.fetches ++ ["counts/" ++ mid] }
    match env.counts with
    | .error e => (st2, some e)
    | .ok cp => processPlayers uid ename mid cp env.persistErr 0 players st2

/-- Per-run state: match state plus the successful / failed counters and the
collected error strings. -/
structure RunState where
  ms : MatchState
  successful : ℕ
  failed : ℕ
  errors : List String
deriving DecidableEq

/-- The error string pushed for a failed match:
`` `Match ${matchId}: ${error.message}` ``. -/
def errEntry (mid msg : String) : String := "Match " ++ mid ++ ": " ++ msg

/-- One iteration of the match loop with its surrounding try/catch
(index.ts lines 122-227): a thrown error increments `failed` and is
recorded; success increments `successful`. -/
def processMatch (uid ename : String) (env : String → MatchEnv)
    (st : RunState) (mid : String) : RunState :=
  match matchBody uid ename mid (env mid) st.ms with
  | (ms1, none) => { st with ms := ms1, successful := st.successful + 1 }
  | (ms1, some e) =>
    { st with
      ms := ms1
      failed := st.failed + 1
      errors := st.errors ++ [errEntry mid e] }

/-- The sequential match loop. -/
def runLoop (uid ename : String) (env : String → MatchEnv)
    (mids : List String) (st : RunState) : RunState :=
  mids.foldl (processMatch uid ename env) st

/-- One segment of the discovery payload; `match_id` may be absent. -/
structure ApiSegment where
  match_id : Option String

/-- One section of the discovery payload. -/
structure ApiSection where
  segments : List ApiSegment

/-- Event environment: the discovery response and the per-match
environments. -/
structure EventEnv where
  api2 : Except String (List ApiSection)
  matchEnvs : String → MatchEnv

/-- Collection of match ids from the discovery payload (index.ts lines
95-105); `if (segment.match_id)` skips absent and empty ids. -/
def collectMatchIds (secs : List ApiSection) : List String :=
  ((secs.map ApiSection.segments).flatten).filterMap (fun seg =>
    match seg.match_id with
    | none => none
    | some s => if s = "" then none else some s)

/-- The regex search `event_url.match(/event\/([^\/]+)/)`: find the
leftmost occurrence of "event/" followed by at least one non-slash
character and return that maximal non-slash token. -/
def extractEventId : List Char → Option (List Char)
  | [] => none
  | c :: rest =>
    if (c :: rest).take 6 = "event/".data then
      let tok := ((c :: rest).drop 6).takeWhile (fun ch => ch ≠ '/')
      if tok.isEmpty then extractEventId rest else some tok
    else extractEventId rest

/-- The phase before the match loop: required-field check, event-id
extraction, discovery call, match-id collection, empty check.  Each early
return of index.ts becomes an `Except.error` carrying its message. -/
def discoverPhase (url ename : String) (env : EventEnv) :
    Except String (List String) :=
  if url = "" ∨ ename = "" then .error "Missing required fields"
  else
    match extractEventId url.data with
    | none => .error "Invalid event URL format"
    | some _ =>
      match env.api2 with
      | .error e => .error e
      | .ok secs =>
        let mids := collectMatchIds secs
        if mids = [] then .error "No matches found in event"
        else .ok mids

/-- The JSON response of the edge function: an error response or the final
run summary (`errors` is omitted when the list is empty). -/
inductive ScrapeResponse where
  | failure (error : String)
  | success (total_matches successful failed total_players : ℕ)
      (players : List (String × ℕ × ℕ)) (errors : Option (List String))
deriving DecidableEq

def ScrapeResponse.isFailure : ScrapeResponse → Bool
  | .failure _ => true
  | _ => false

/-- Response plus the final persistent/trace state of a run. -/
structure ScrapeOutcome where
  response : ScrapeResponse
  state : MatchState

/-- The whole handler (authentication, which precedes everything and is
external, is abstracted by the given `uid` scope). -/
def scrapeEvent (url ename uid : String) (env : EventEnv)
    (store0 : List StatRecord) : ScrapeOutcome :=
  match discoverPhase url ename env with
  | .error e => ⟨.failure e, ⟨store0, [], [], []⟩⟩
  | .ok mids =>
    let st := runLoop uid ename env.matchEnvs mids ⟨⟨store0, [], [], []⟩, 0, 0, []⟩
    ⟨.success mids.length st.successful st.failed st.ms.psum.length st.ms.psum
      (if st.errors = [] then none else some st.errors), st.ms⟩

/-- Modelled from the spec: the weighted-average computation of the
AggregationReader.  The repository's aggregation engine
(`database_manager.py`, producing the `weighted_3da` column read by
overlay.js) is not under src/; only its documentation and the ordering
code are.  Per the spec, `weighted_average = Σ(average_i × legs_played_i)
/ Σ(legs_played_i)` over a player's matching records. -/
def weighted_average (recs : List (ℚ × ℕ)) : ℚ :=
  (recs.map (fun r => r.1 * (r.2 : ℚ))).sum / (recs.map (fun r => ((r.2 : ℚ)))).sum

/-- A row of the `player_stats` view consumed by the leaderboard code. -/
structure AggPlayer where
  name : String
  weighted_3da : ℚ
deriving DecidableEq

/-- Descending order on `weighted_3da` (`.order('weighted_3da',
{ ascending: false })` in overlay.js). -/
def descRel (a b : AggPlayer) : Prop := b.weighted_3da ≤ a.weighted_3da

instance : DecidableRel descRel := fun a b =>
  inferInstanceAs (Decidable (b.weighted_3da ≤ a.weighted_3da))

instance : IsTotal AggPlayer descRel :=
  ⟨fun a b => le_total b.weighted_3da a.weighted_3da⟩

instance : IsTrans AggPlayer descRel :=
  ⟨fun _ _ _ h1 h2 => le_trans h2 h1⟩

/-- The leaderboard of overlay.js lines 806-836: rows ordered descending by
`weighted_3da`, then `rank: index + 1` attached. -/
def leaderboard (ps : List AggPlayer) : List (ℕ × AggPlayer) :=
  ((ps.insertionSort descRel).enum).map (fun ip => (ip.1 + 1, ip.2))

/-- The last record in a batch carrying a given composite key. -/
def lastWithKey (k : String × String × String × String) :
    List StatRecord → Option StatRecord
  | [] => none
  | r :: rs =>
    match lastWithKey k rs with
    | some r1 => some r1
    | none => if keyOf r = k then some r else none

/-- Result of replaying a batch of upserts on a single already-stored
record: each record of the batch with the same key overwrites it in turn. -/
def chainApply (rs : List StatRecord) (x : StatRecord) : StatRecord :=
  rs.foldl (fun y r => if keyOf y = keyOf r then r else y) x

/-- Records of one match that actually enter the store: the per-player loop
persists record after record and stops at the first failing upsert. -/
def playerRecords (uid ename mid : String) (cp : CountsPayload)
    (pErr : ℕ → Option String) : ℕ → List RosterEntry → List StatRecord
  | _, [] => []
  | i, p :: rest =>
    match pErr i with
    | some _ => []
    | none =>
      buildRecord uid ename mid p (cp.first_nine.getD i ⟨none⟩)
        (cp.checkout_stats.getD i CheckoutData.empty) (cp.distribution.getD i []) ::
        playerRecords uid ename mid cp pErr (i + 1) rest

/-- All records the builder would construct for a match, one per player. -/
def builtRecords (uid ename mid : String) (cp : CountsPayload) :
    ℕ → List RosterEntry → List StatRecord
  | _, [] => []
  | i, p :: rest =>
    buildRecord uid ename mid p (cp.first_nine.getD i ⟨none⟩)
      (cp.checkout_stats.getD i CheckoutData.empty) (cp.distribution.getD i []) ::
      builtRecords uid ename mid cp (i + 1) rest

/-- Records persisted by one match; nothing is persisted when either fetch
fails. -/
def matchRecords (uid ename mid : String) (env : MatchEnv) : List StatRecord :=
  match env.roster with
  | .error _ => []
  | .ok players =>
    match env.counts with
    | .error _ => []
    | .ok cp => playerRecords uid ename mid cp env.persistErr 0 players

/-- Records persisted by a whole run, in order. -/
def eventRecords (uid ename : String) (env : String → MatchEnv) :
    List String → List StatRecord
  | [] => []
  | mid :: mids =>
    matchRecords uid ename mid (env mid) ++ eventRecords uid ename env mids

/-- Records persisted by a whole invocation; empty when the run fails before
the match loop. -/
def reachedRecords (url ename uid : String) (env : EventEnv) : List StatRecord :=
  match discoverPhase url ename env with
  | .error _ => []
  | .ok mids => eventRecords uid ename env.matchEnvs mids

/-- A roster/counts environment for three matches where match m2's roster
fetch returns an HTTP error. -/
def env4 : EventEnv := {
  api2 := .ok [⟨[⟨some "m1"⟩, ⟨some "m2"⟩, ⟨some "m3"⟩]⟩]
  matchEnvs := fun mid =>
    if mid = "m1" then
      { roster := .ok [⟨"P1", 2, 3, 80, none⟩]
        counts := .ok ⟨[[(100, 3), (140, 1), (180, 2)]], [⟨some 30⟩],
          [⟨some "50%", some 4, some 2, some 40, some 25⟩]⟩
        persistErr := fun _ => none }
    else if mid = "m3" then
      { roster := .ok [⟨"P3", 1, 2, 70, none⟩]
        counts := .ok ⟨[[(180, 1)]], [], []⟩
        persistErr := fun _ => none }
    else
      { roster := .error "Failed to fetch players data: 500"
        counts := .ok ⟨[], [], []⟩
        persistErr := fun _ => none } }

/-- One match, two players, the first player's upsert fails. -/
def envC3 : EventEnv := {
  api2 := .ok [⟨[⟨some "m1"⟩]⟩]
  matchEnvs := fun _ =>
    { roster := .ok [⟨"P1", 0, 1, 50, none⟩, ⟨"P2", 1, 1, 60, none⟩]
      counts := .ok ⟨[], [], []⟩
      persistErr := fun j => if j = 0 then some "boom" else none } }

/-- A match environment where the second player's upsert fails. -/
def envC3m : MatchEnv :=
  { roster := .ok [⟨"P1", 0, 1, 50, none⟩, ⟨"P2", 1, 1, 60, none⟩]
    counts := .ok ⟨[], [], []⟩
    persistErr := fun j => if j = 1 then some "boom" else none }

/-- One match whose roster fetch throws "boom". -/
def envC7 : EventEnv := {
  api2 := .ok [⟨[⟨some "m2"⟩]⟩]
  matchEnvs := fun _ =>
    { roster := .error "boom"
      counts := .ok ⟨[], [], []⟩
      persistErr := fun _ => none } }

/-- A discovery payload whose segments carry no usable match id. -/
def secs0 : List ApiSection := [⟨[⟨some ""⟩, ⟨none⟩]⟩]

/-- An event whose discovery yields zero match identifiers. -/
def envEmpty : EventEnv :=
  { api2 := .ok secs0
    matchEnvs := fun _ =>
      { roster := .error "x", counts := .error "x", persistErr := fun _ => none } }

/-! ### Lemmas and claim theorems -/

theorem upsertAll_nil (s : List StatRecord) : upsertAll s [] = s := rfl

theorem upsertAll_cons (s : List StatRecord) (r : StatRecord) (rs : List StatRecord) :
    upsertAll s (r :: rs) = upsertAll (upsert s r) rs := rfl

theorem upsertAll_append (s : List StatRecord) (rs1 rs2 : List StatRecord) :
    upsertAll s (rs1 ++ rs2) = upsertAll (upsertAll s rs1) rs2 :=
  List.foldl_append _ _ _ _

theorem mem_upsert_key_eq {s : List StatRecord} {r x : StatRecord}
    (hx : x ∈ upsert s r) (hk : keyOf x = keyOf r) : x = r := by
  unfold upsert at hx
  split at hx
  · rcases List.mem_map.mp hx with ⟨y, _, hy⟩
    by_cases h : keyOf y = keyOf r
    · simpa [h] using hy.symm
    · rw [if_neg h] at hy
      exact absurd (hy ▸ hk) h
  · rcases List.mem_append.mp hx with h | h
    · rename_i hno
      exact absurd ⟨x, h, hk⟩ hno
    · simpa using h

theorem mem_upsert_key_ne {s : List StatRecord} {r x : StatRecord}
    (hx : x ∈ upsert s r) (hk : keyOf x ≠ keyOf r) : x ∈ s := by
  unfold upsert at hx
  split at hx
  · rcases List.mem_map.mp hx with ⟨y, hy, hxy⟩
    by_cases h : keyOf y = keyOf r
    · rw [if_pos h] at hxy
      exact absurd (hxy ▸ hk) (by simp [h])
    · rw [if_neg h] at hxy
      exact hxy ▸ hy
  · rcases List.mem_append.mp hx with h | h
    · exact h
    · simp at h
      exact absurd (h ▸ hk) (by simp)

theorem key_mem_upsert (s : List StatRecord) (r : StatRecord) :
    keyOf r ∈ storeKeys (upsert s r) := by
  unfold upsert storeKeys
  split
  · rename_i hyes
    rcases hyes with ⟨y, hy, hky⟩
    exact List.mem_map.mpr ⟨r, List.mem_map.mpr ⟨y, hy, by rw [if_pos hky]⟩, rfl⟩
  · exact List.mem_map.mpr ⟨r, by simp, rfl⟩

theorem storeKeys_map_replace (s : List StatRecord) (r : StatRecord) :
    storeKeys (s.map (fun x => if keyOf x = keyOf r then r else x)) = storeKeys s := by
  unfold storeKeys
  rw [List.map_map]
  apply List.map_congr_left
  intro x _
  by_cases h : keyOf x = keyOf r
  · simp [Function.comp, h]
  · simp [Function.comp, h]

theorem storeKeys_upsert_mono {s : List StatRecord}
    {k : String × String × String × String} (r : StatRecord)
    (h : k ∈ storeKeys s) : k ∈ storeKeys (upsert s r) := by
  unfold upsert
  split
  · rw [storeKeys_map_replace]
    exact h
  · unfold storeKeys at h ⊢
    rw [List.map_append]
    exact List.mem_append.mpr (Or.inl h)

theorem storeKeys_nodup_upsert {s : List StatRecord} (r : StatRecord)
    (h : (storeKeys s).Nodup) : (storeKeys (upsert s r)).Nodup := by
  unfold upsert
  split
  · rw [storeKeys_map_replace]
    exact h
  · rename_i hno
    unfold storeKeys at h ⊢
    rw [List.map_append]
    simp only [List.map_cons, List.map_nil]
    rw [List.nodup_append]
    refine ⟨h, List.nodup_singleton _, ?_⟩
    intro k hk hk1
    simp only [List.mem_singleton] at hk1
    rcases List.mem_map.mp hk with ⟨y, hy, hky⟩
    exact hno ⟨y, hy, by rw [hky, hk1]⟩

theorem lastWithKey_cons (k : String × String × String × String)
    (r : StatRecord) (rs : List StatRecord) :
    lastWithKey k (r :: rs) =
      match lastWithKey k rs with
      | some r1 => some r1
      | none => if keyOf r = k then some r else none := rfl

theorem lastWithKey_none {k : String × String × String × String}
    {rs : List StatRecord} (h : lastWithKey k rs = none) :
    ∀ r ∈ rs, keyOf r ≠ k := by
  induction rs with
  | nil => intro r hr; simp at hr
  | cons r rs ih =>
    rw [lastWithKey_cons] at h
    rcases hcase : lastWithKey k rs with _ | r2
    · simp only [hcase] at h
      intro r1 hr1
      rcases List.mem_cons.mp hr1 with h1 | h1
      · subst h1
        intro hk
        rw [if_pos hk] at h
        exact Option.noConfusion h
      · exact ih hcase r1 h1
    · simp [hcase] at h

theorem chainApply_cons (r : StatRecord) (rs : List StatRecord) (x : StatRecord) :
    chainApply (r :: rs) x = chainApply rs (if keyOf x = keyOf r then r else x) := rfl

theorem chainApply_eq_last (rs : List StatRecord) (x : StatRecord) :
    chainApply rs x = (lastWithKey (keyOf x) rs).getD x := by
  induction rs generalizing x with
  | nil => rfl
  | cons r rs ih =>
    rw [chainApply_cons, lastWithKey_cons]
    by_cases h : keyOf x = keyOf r
    · rw [if_pos h, ih r, ← h]
      rcases hcase : lastWithKey (keyOf x) rs with _ | r2
      · simp [hcase]
      · simp [hcase]
    · rw [if_neg h, ih x]
      rcases hcase : lastWithKey (keyOf x) rs with _ | r2
      · simp only [hcase, Option.getD_none,
          if_neg (fun hh => h (Eq.symm hh)), Option.getD_none]
      · simp only [hcase, Option.getD_some]

theorem upsertAll_eq_map :
    ∀ (rs : List StatRecord) (t : List StatRecord),
      (∀ r ∈ rs, keyOf r ∈ storeKeys t) →
      upsertAll t rs = t.map (chainApply rs) := by
  intro rs
  induction rs with
  | nil =>
    intro t _
    exact (List.map_id t).symm
  | cons r rs ih =>
    intro t h
    have hr : ∃ x ∈ t, keyOf x = keyOf r := by
      rcases List.mem_map.mp (h r (by simp)) with ⟨y, hy, hky⟩
      exact ⟨y, hy, hky⟩
    rw [upsertAll_cons]
    have hup : upsert t r = t.map (fun x => if keyOf x = keyOf r then r else x) := by
      unfold upsert
      rw [if_pos hr]
    rw [hup]
    have hkeys : ∀ r1 ∈ rs, keyOf r1 ∈
        storeKeys (t.map (fun x => if keyOf x = keyOf r then r else x)) := by
      intro r1 hr1
      rw [storeKeys_map_replace]
      exact h r1 (by simp [hr1])
    rw [ih _ hkeys, List.map_map]
    rfl

theorem mem_upsertAll_stable :
    ∀ (rs : List StatRecord) (t : List StatRecord) (x : StatRecord),
      x ∈ upsertAll t rs → (∀ r ∈ rs, keyOf r ≠ keyOf x) → x ∈ t := by
  intro rs
  induction rs with
  | nil => intro t x hx _; exact hx
  | cons r rs ih =>
    intro t x hx hne
    have h1 : x ∈ upsert t r := ih _ x hx (fun r1 hr1 => hne r1 (by simp [hr1]))
    exact mem_upsert_key_ne h1 (fun hk => hne r (by simp) hk.symm)

theorem upsertAll_last :
    ∀ (rs : List StatRecord) (s : List StatRecord) (x r1 : StatRecord),
      x ∈ upsertAll s rs → lastWithKey (keyOf x) rs = some r1 → x = r1 := by
  intro rs
  induction rs with
  | nil => intro s x r1 _ hl; exact Option.noConfusion hl
  | cons r rs ih =>
    intro s x r1 hx hl
    rw [upsertAll_cons] at hx
    rw [lastWithKey_cons] at hl
    rcases hcase : lastWithKey (keyOf x) rs with _ | r2
    · simp only [hcase] at hl
      by_cases hk : keyOf r = keyOf x
      · rw [if_pos hk] at hl
        have hr1 : r = r1 := Option.some.inj hl
        have hstable : x ∈ upsert s r :=
          mem_upsertAll_stable rs _ x hx (lastWithKey_none hcase)
        exact (mem_upsert_key_eq hstable hk.symm).trans hr1
      · rw [if_neg hk] at hl
        exact Option.noConfusion hl
    · simp only [hcase] at hl
      have hr2 : r2 = r1 := Option.some.inj hl
      exact hr2 ▸ ih (upsert s r) x r2 hx hcase

theorem storeKeys_upsertAll_mono :
    ∀ (rs : List StatRecord) (t : List StatRecord)
      (k : String × String × String × String),
      k ∈ storeKeys t → k ∈ storeKeys (upsertAll t rs) := by
  intro rs
  induction rs with
  | nil => intro t k h; exact h
  | cons r rs ih => intro t k h; exact ih _ k (storeKeys_upsert_mono r h)

theorem key_mem_upsertAll :
    ∀ (rs : List StatRecord) (s : List StatRecord) (r : StatRecord),
      r ∈ rs → keyOf r ∈ storeKeys (upsertAll s rs) := by
  intro rs
  induction rs with
  | nil => intro s r h; simp at h
  | cons r1 rs ih =>
    intro s r h
    rcases List.mem_cons.mp h with h1 | h1
    · subst h1
      exact storeKeys_upsertAll_mono rs _ _ (key_mem_upsert s r)
    · exact ih _ r h1

theorem upsertAll_idem (s : List StatRecord) (rs : List StatRecord) :
    upsertAll (upsertAll s rs) rs = upsertAll s rs := by
  have hkeys : ∀ r ∈ rs, keyOf r ∈ storeKeys (upsertAll s rs) :=
    fun r hr => key_mem_upsertAll rs s r hr
  rw [upsertAll_eq_map rs _ hkeys]
  have hpt : ∀ x ∈ upsertAll s rs, chainApply rs x = x := by
    intro x hx
    rw [chainApply_eq_last]
    rcases hcase : lastWithKey (keyOf x) rs with _ | r1
    · rfl
    · exact ((upsertAll_last rs s x r1 hx hcase).symm : r1 = x)
  calc (upsertAll s rs).map (chainApply rs)
      = (upsertAll s rs).map id := List.map_congr_left (fun x hx => hpt x hx)
    _ = upsertAll s rs := List.map_id _

theorem storeKeys_nodup_upsertAll :
    ∀ (rs : List StatRecord) (s : List StatRecord),
      (storeKeys s).Nodup → (storeKeys (upsertAll s rs)).Nodup := by
  intro rs
  induction rs with
  | nil => intro s h; exact h
  | cons r rs ih => intro s h; exact ih _ (storeKeys_nodup_upsert r h)

theorem processPlayers_store (uid ename mid : String) (cp : CountsPayload)
    (pErr : ℕ → Option String) :
    ∀ (ps : List RosterEntry) (i : ℕ) (st : MatchState),
      (processPlayers uid ename mid cp pErr i ps st).1.store =
        upsertAll st.store (playerRecords uid ename mid cp pErr i ps) := by
  intro ps
  induction ps with
  | nil => intro i st; rfl
  | cons p rest ih =>
    intro i st
    rcases hp : pErr i with _ | e
    · simp only [processPlayers, playerRecords, hp]
      rw [ih (i + 1), upsertAll_cons]
    · simp only [processPlayers, playerRecords, hp]
      rfl

theorem matchBody_store (uid ename mid : String) (env : MatchEnv)
    (st : MatchState) :
    (matchBody uid ename mid env st).1.store =
      upsertAll st.store (matchRecords uid ename mid env) := by
  unfold matchBody matchRecords
  rcases env.roster with e | players
  · rfl
  · rcases env.counts with e | cp
    · rfl
    · exact processPlayers_store uid ename mid cp env.persistErr players 0 _

theorem processMatch_ms (uid ename : String) (env : String → MatchEnv)
    (st : RunState) (mid : String) :
    (processMatch uid ename env st mid).ms =
      (matchBody uid ename mid (env mid) st.ms).1 := by
  rcases h : matchBody uid ename mid (env mid) st.ms with ⟨ms1, _ | e⟩ <;>
    simp [processMatch, h]

theorem processMatch_store (uid ename : String) (env : String → MatchEnv)
    (st : RunState) (mid : String) :
    (processMatch uid ename env st mid).ms.store =
      upsertAll st.ms.store (matchRecords uid ename mid (env mid)) := by
  rw [processMatch_ms, matchBody_store]

theorem runLoop_cons (uid ename : String) (env : String → MatchEnv)
    (mid : String) (mids : List String) (st : RunState) :
    runLoop uid ename env (mid :: mids) st =
      runLoop uid ename env mids (processMatch uid ename env st mid) := rfl

theorem runLoop_store (uid ename : String) (env : String → MatchEnv) :
    ∀ (mids : List String) (st : RunState),
      (runLoop uid ename env mids st).ms.store =
        upsertAll st.ms.store (eventRecords uid ename env mids) := by
  intro mids
  induction mids with
  | nil => intro st; rfl
  | cons mid mids ih =>
    intro st
    rw [runLoop_cons, ih, processMatch_store]
    exact (upsertAll_append _ _ _).symm

theorem scrapeEvent_store (url ename uid : String) (env : EventEnv)
    (s0 : List StatRecord) :
    (scrapeEvent url ename uid env s0).state.store =
      upsertAll s0 (reachedRecords url ename uid env) := by
  unfold scrapeEvent reachedRecords
  rcases h : discoverPhase url ename env with e | mids
  · exact (upsertAll_nil s0).symm
  · exact runLoop_store uid ename env.matchEnvs mids ⟨⟨s0, [], [], []⟩, 0, 0, []⟩

theorem processMatch_counts (uid ename : String) (env : String → MatchEnv)
    (st : RunState) (mid : String) :
    (processMatch uid ename env st mid).successful +
      (processMatch uid ename env st mid).failed =
      st.successful + st.failed + 1 := by
  rcases h : matchBody uid ename mid (env mid) st.ms with ⟨ms1, _ | e⟩ <;>
    simp [processMatch, h] <;> omega

theorem runLoop_counts (uid ename : String) (env : String → MatchEnv) :
    ∀ (mids : List String) (st : RunState),
      (runLoop uid ename env mids st).successful +
        (runLoop uid ename env mids st).failed =
        st.successful + st.failed + mids.length := by
  intro mids
  induction mids with
  | nil => intro st; rfl
  | cons mid mids ih =>
    intro st
    rw [runLoop_cons, ih, processMatch_counts]
    simp
    omega

theorem processMatch_errlen (uid ename : String) (env : String → MatchEnv)
    (st : RunState) (mid : String) :
    (processMatch uid ename env st mid).errors.length + st.failed =
      st.errors.length + (processMatch uid ename env st mid).failed := by
  rcases h : matchBody uid ename mid (env mid) st.ms with ⟨ms1, _ | e⟩ <;>
    simp [processMatch, h] <;> omega

theorem runLoop_errlen (uid ename : String) (env : String → MatchEnv) :
    ∀ (mids : List String) (st : RunState),
      (runLoop uid ename env mids st).errors.length + st.failed =
        st.errors.length + (runLoop uid ename env mids st).failed := by
  intro mids
  induction mids with
  | nil => intro st; rfl
  | cons mid mids ih =>
    intro st
    rw [runLoop_cons]
    have h1 := ih (processMatch uid ename env st mid)
    have h2 := processMatch_errlen uid ename env st mid
    omega

theorem processMatch_errors_shape (uid ename : String) (env : String → MatchEnv)
    (st : RunState) (mid : String) :
    ∀ e ∈ (processMatch uid ename env st mid).errors,
      e ∈ st.errors ∨ ∃ msg, e = errEntry mid msg := by
  rcases h : matchBody uid ename mid (env mid) st.ms with ⟨ms1, _ | e1⟩
  · simp [processMatch, h]
    intro e he
    exact Or.inl he
  · simp only [processMatch, h]
    intro e he
    rcases List.mem_append.mp he with h1 | h1
    · exact Or.inl h1
    · simp at h1
      exact Or.inr ⟨e1, h1⟩

theorem runLoop_errors_shape (uid ename : String) (env : String → MatchEnv) :
    ∀ (mids : List String) (st : RunState),
      ∀ e ∈ (runLoop uid ename env mids st).errors,
        e ∈ st.errors ∨ ∃ mid ∈ mids, ∃ msg, e = errEntry mid msg := by
  intro mids
  induction mids with
  | nil => intro st e he; exact Or.inl he
  | cons mid mids ih =>
    intro st e he
    rw [runLoop_cons] at he
    rcases ih (processMatch uid ename env st mid) e he with h1 | ⟨mid1, hm1, msg, hmsg⟩
    · rcases processMatch_errors_shape uid ename env st mid e h1 with h2 | ⟨msg, hmsg⟩
      · exact Or.inl h2
      · exact Or.inr ⟨mid, by simp, msg, hmsg⟩
    · exact Or.inr ⟨mid1, by simp [hm1], msg, hmsg⟩

theorem hsFold_acc_le :
    ∀ (d : ScoreDist) (v m : ℕ),
      d.foldl (fun acc kv => maxAcc acc kv.1) (some v) = some m → v ≤ m := by
  intro d
  induction d with
  | nil =>
    intro v m h
    simp only [List.foldl_nil, Option.some.injEq] at h
    omega
  | cons kv rest ih =>
    intro v m h
    simp only [List.foldl_cons] at h
    have h2 : maxAcc (some v) kv.1 = some (Nat.max v kv.1) := rfl
    rw [h2] at h
    exact le_trans (Nat.le_max_left v kv.1) (ih _ _ h)

theorem hsFold_key_le :
    ∀ (d : ScoreDist) (acc : Option ℕ) (k : ℕ),
      k ∈ d.map Prod.fst → ∀ m,
        d.foldl (fun a kv => maxAcc a kv.1) acc = some m → k ≤ m := by
  intro d
  induction d with
  | nil => intro acc k hk; simp at hk
  | cons kv rest ih =>
    intro acc k hk m h
    simp only [List.foldl_cons] at h
    simp only [List.map_cons] at hk
    rcases List.mem_cons.mp hk with h1 | h1
    · subst h1
      cases acc with
      | none =>
        have h2 : maxAcc none kv.1 = some kv.1 := rfl
        rw [h2] at h
        exact hsFold_acc_le rest _ m h
      | some v =>
        have h2 : maxAcc (some v) kv.1 = some (Nat.max v kv.1) := rfl
        rw [h2] at h
        exact le_trans (Nat.le_max_right v kv.1) (hsFold_acc_le rest _ m h)
    · exact ih _ k h1 m h

theorem hsFold_mem :
    ∀ (d : ScoreDist) (acc : Option ℕ) (m : ℕ),
      d.foldl (fun a kv => maxAcc a kv.1) acc = some m →
        acc = some m ∨ m ∈ d.map Prod.fst := by
  intro d
  induction d with
  | nil =>
    intro acc m h
    simp only [List.foldl_nil] at h
    exact Or.inl h
  | cons kv rest ih =>
    intro acc m h
    simp only [List.foldl_cons] at h
    rcases ih (maxAcc acc kv.1) m h with h1 | h1
    · cases acc with
      | none =>
        have h2 : kv.1 = m := by simpa [maxAcc] using h1
        exact Or.inr (by simp [← h2])
      | some v =>
        have h2 : Nat.max v kv.1 = m := by simpa [maxAcc] using h1
        rcases Nat.le_total v kv.1 with h3 | h3
        · have h4 : Nat.max v kv.1 = kv.1 := Nat.max_eq_right h3
          exact Or.inr (by simp [← h2, h4])
        · have h4 : Nat.max v kv.1 = v := Nat.max_eq_left h3
          exact Or.inl (by rw [← h2, h4])
    · exact Or.inr (by simp [h1])

theorem hsFold_some :
    ∀ (d : ScoreDist) (v : ℕ),
      ∃ m, d.foldl (fun a kv => maxAcc a kv.1) (some v) = some m := by
  intro d
  induction d with
  | nil => intro v; exact ⟨v, rfl⟩
  | cons kv rest ih =>
    intro v
    simp only [List.foldl_cons]
    exact ih (Nat.max v kv.1)

theorem highestScore_nonempty (d : ScoreDist) (h : d ≠ []) :
    ∃ m, highestScore d = some m := by
  cases d with
  | nil => exact absurd rfl h
  | cons kv rest => exact hsFold_some rest kv.1

theorem enumFrom_map_fst_add_one :
    ∀ (l : List AggPlayer) (n : ℕ),
      ((l.enumFrom n).map (fun ip => ip.1 + 1)) = List.range' (n + 1) l.length := by
  intro l
  induction l with
  | nil => intro n; rfl
  | cons x xs ih =>
    intro n
    show (n + 1) :: ((xs.enumFrom (n + 1)).map (fun ip => ip.1 + 1)) = _
    rw [ih (n + 1)]
    rfl

theorem enumFrom_map_snd :
    ∀ (l : List AggPlayer) (n : ℕ), (l.enumFrom n).map Prod.snd = l := by
  intro l
  induction l with
  | nil => intro n; rfl
  | cons x xs ih =>
    intro n
    show x :: (xs.enumFrom (n + 1)).map Prod.snd = x :: xs
    rw [ih (n + 1)]

theorem processPlayers_persist_fail (uid ename mid : String) (cp : CountsPayload)
    (pErr : ℕ → Option String) (i : ℕ) (e : String)
    (hpre : ∀ k, k < i → pErr k = none) (hi : pErr i = some e) :
    ∀ (ps : List RosterEntry) (j : ℕ) (st : MatchState),
      j ≤ i → i < j + ps.length →
      (processPlayers uid ename mid cp pErr j ps st).2 =
          some ("Supabase upsert failed: " ++ e) ∧
        (processPlayers uid ename mid cp pErr j ps st).1.store =
          upsertAll st.store ((builtRecords uid ename mid cp j ps).take (i - j)) ∧
        (processPlayers uid ename mid cp pErr j ps st).1.upserts =
          st.upserts ++ (ps.take (i - j + 1)).map (fun p => (mid, p.name)) := by
  intro ps
  induction ps with
  | nil =>
    intro j st hj hlen
    simp only [List.length_nil] at hlen
    omega
  | cons p rest ih =>
    intro j st hj hlen
    by_cases hji : j = i
    · subst hji
      refine ⟨?_, ?_, ?_⟩
      · simp [processPlayers, hi]
      · simp [processPlayers, hi, Nat.sub_self, upsertAll_nil]
      · simp [processPlayers, hi, Nat.sub_self]
    · have hjlt : j < i := lt_of_le_of_ne hj hji
      have hpj : pErr j = none := hpre j hjlt
      simp only [processPlayers, hpj]
      simp only [List.length_cons] at hlen
      have ihres := ih (j + 1)
        { st with
          upserts := st.upserts ++ [(mid, p.name)]
          store := upsert st.store
            (buildRecord uid ename mid p (cp.first_nine.getD j ⟨none⟩)
              (cp.checkout_stats.getD j CheckoutData.empty) (cp.distribution.getD j []))
          psum := bumpSummary st.psum p.name
            (buildRecord uid ename mid p (cp.first_nine.getD j ⟨none⟩)
              (cp.checkout_stats.getD j CheckoutData.empty)
              (cp.distribution.getD j [])).count_180s }
        (by omega) (by omega)
      refine ⟨ihres.1, ?_, ?_⟩
      · rw [ihres.2.1]
        simp only [builtRecords]
        have hsub : i - j = (i - (j + 1)) + 1 := by omega
        rw [hsub, List.take_succ_cons, upsertAll_cons]
      · rw [ihres.2.2]
        have hsub : i - j + 1 = (i - (j + 1) + 1) + 1 := by omega
        rw [hsub, List.take_succ_cons, List.map_cons]
        simp

theorem addIfSome_eq (acc : ℕ) (o : Option ℕ) : addIfSome acc o = acc + o.getD 0 := by
  cases o with
  | none => simp [addIfSome]
  | some v =>
    by_cases hv : v = 0
    · simp [addIfSome, hv]
    · simp [addIfSome, hv]

theorem scrapeEvent_error {url ename uid : String} {env : EventEnv}
    {s0 : List StatRecord} {msg : String}
    (h : discoverPhase url ename env = .error msg) :
    scrapeEvent url ename uid env s0 = ⟨.failure msg, ⟨s0, [], [], []⟩⟩ := by
  unfold scrapeEvent
  rw [h]

/-- C1: for every player's distribution map, the built record has
`count_180s` equal to the value at key 180 (0 if absent), `count_140_plus`
equal to the sum of the values at keys 140, 141, 160, 171 (each defaulting
to 0) plus `count_180s`, and `count_100_plus` equal to the value at key
100 (default 0) plus `count_140_plus`; the distribution
{100 ↦ 3, 140 ↦ 1, 180 ↦ 2} yields counts 2, 3 and 6. -/
theorem c1_tally_derivation :
    (∀ (uid ename mid : String) (p : RosterEntry) (fns : FirstNineStats)
        (cd : CheckoutData) (d : ScoreDist),
      (buildRecord uid ename mid p fns cd d).count_180s = distGet d 180 ∧
      (buildRecord uid ename mid p fns cd d).count_140_plus =
        distGet d 140 + distGet d 141 + distGet d 160 + distGet d 171 +
          (buildRecord uid ename mid p fns cd d).count_180s ∧
      (buildRecord uid ename mid p fns cd d).count_100_plus =
        distGet d 100 + (buildRecord uid ename mid p fns cd d).count_140_plus) ∧
    ((buildRecord "u" "e" "m" ⟨"P", 0, 0, 0, none⟩ ⟨none⟩ CheckoutData.empty
        [(100, 3), (140, 1), (180, 2)]).count_180s = 2 ∧
      (buildRecord "u" "e" "m" ⟨"P", 0, 0, 0, none⟩ ⟨none⟩ CheckoutData.empty
        [(100, 3), (140, 1), (180, 2)]).count_140_plus = 3 ∧
      (buildRecord "u" "e" "m" ⟨"P", 0, 0, 0, none⟩ ⟨none⟩ CheckoutData.empty
        [(100, 3), (140, 1), (180, 2)]).count_100_plus = 6) := by
  constructor
  · intro uid ename mid p fns cd d
    refine ⟨rfl, ?_, ?_⟩
    · show count140plus d = distGet d 140 + distGet d 141 + distGet d 160 +
        distGet d 171 + count180s d
      simp only [count140plus, addIfSome_eq, distGet]
      omega
    · show count100plus d = distGet d 100 + count140plus d
      simp only [count100plus, distGet]
  · exact ⟨by decide, by decide, by decide⟩

/-- C2 counterexample: for the empty distribution map the built record's
`highest_score` is the empty `Math.max`, i.e. `-Infinity` (modelled `none`,
stored as null), not the numeric value 0 the claim asserts. -/
theorem c2_counterexample :
    (buildRecord "u" "e" "m" ⟨"P", 0, 0, 0, none⟩ ⟨none⟩ CheckoutData.empty
      []).highest_score = none ∧
    (buildRecord "u" "e" "m" ⟨"P", 0, 0, 0, none⟩ ⟨none⟩ CheckoutData.empty
      []).highest_score ≠ some 0 :=
  ⟨rfl, by decide⟩

/-- C2 (amended): `highest_score` is the maximum numeric key present in the
distribution map whenever the map is non-empty (an upper bound of the keys
and itself a key); when the map is empty it is `Math.max()` of no
arguments, `-Infinity` (modelled `none`, serialized as null), not 0. -/
theorem c2_highest_score_amended :
    ∀ (uid ename mid : String) (p : RosterEntry) (fns : FirstNineStats)
      (cd : CheckoutData) (d : ScoreDist),
      (∀ k ∈ d.map Prod.fst, ∀ m,
        (buildRecord uid ename mid p fns cd d).highest_score = some m → k ≤ m) ∧
      (∀ m, (buildRecord uid ename mid p fns cd d).highest_score = some m →
        m ∈ d.map Prod.fst) ∧
      (d ≠ [] → ∃ m,
        (buildRecord uid ename mid p fns cd d).highest_score = some m) ∧
      (d = [] → (buildRecord uid ename mid p fns cd d).highest_score = none) := by
  intro uid ename mid p fns cd d
  have hb : (buildRecord uid ename mid p fns cd d).highest_score = highestScore d := rfl
  rw [hb]
  refine ⟨?_, ?_, ?_, ?_⟩
  · exact fun k hk m hm => hsFold_key_le d none k hk m hm
  · exact fun m hm => (hsFold_mem d none m hm).resolve_left
      (fun h => Option.noConfusion h)
  · exact highestScore_nonempty d
  · intro hd
    rw [hd]
    rfl

theorem c2_highest_score_amended_witness :
    ((100 : ℕ) ∈ ([((100 : ℕ), (3 : ℕ)), (180, 2)]).map Prod.fst) ∧
    ((100 : ℕ) ≤ 180) ∧
    ((180 : ℕ) ∈ ([((100 : ℕ), (3 : ℕ)), (180, 2)]).map Prod.fst) ∧
    (∃ m, (buildRecord "u" "e" "m" ⟨"P", 0, 0, 0, none⟩ ⟨none⟩ CheckoutData.empty
      [(100, 3), (180, 2)]).highest_score = some m) ∧
    ((buildRecord "u" "e" "m" ⟨"P", 0, 0, 0, none⟩ ⟨none⟩ CheckoutData.empty
      []).highest_score = none) :=
  ⟨by decide,
    (c2_highest_score_amended "u" "e" "m" ⟨"P", 0, 0, 0, none⟩ ⟨none⟩
      CheckoutData.empty [(100, 3), (180, 2)]).1 100 (by decide) 180 (by decide),
    (c2_highest_score_amended "u" "e" "m" ⟨"P", 0, 0, 0, none⟩ ⟨none⟩
      CheckoutData.empty [(100, 3), (180, 2)]).2.1 180 (by decide),
    (c2_highest_score_amended "u" "e" "m" ⟨"P", 0, 0, 0, none⟩ ⟨none⟩
      CheckoutData.empty [(100, 3), (180, 2)]).2.2.1 (by decide),
    (c2_highest_score_amended "u" "e" "m" ⟨"P", 0, 0, 0, none⟩ ⟨none⟩
      CheckoutData.empty []).2.2.2 rfl⟩

/-- C3 counterexample: in a run with one match of two players where the
first player's upsert fails, the store stays empty — the remaining player's
record ("P2") is NOT persisted — and the match is counted failed, contrary
to the claim that a single record's failure does not abort the surrounding
match. -/
theorem c3_counterexample :
    (scrapeEvent "event/E" "E1" "u" envC3 []).state.store = [] ∧
    (¬ ∃ r ∈ (scrapeEvent "event/E" "E1" "u" envC3 []).state.store,
      r.name = "P2") ∧
    (scrapeEvent "event/E" "E1" "u" envC3 []).response =
      .success 1 0 1 0 [] (some ["Match m1: Supabase upsert failed: boom"]) :=
  ⟨by decide, by decide, by decide⟩

/-- C3 (amended): when the upsert of an individual record fails, the thrown
PersistenceError is caught at the match boundary, not the record boundary:
the records of players before the failing one remain persisted, the failing
player's and all later players' records are not written (upsert attempts
stop at the failing index), the match is counted failed with an error
entry, and processing continues with the remaining matches — only the
event run is not aborted. -/
theorem c3_persist_failure_amended :
    (∀ (uid ename mid : String) (env : MatchEnv) (st : MatchState)
        (players : List RosterEntry) (cp : CountsPayload) (i : ℕ) (e : String),
      env.roster = .ok players → env.counts = .ok cp →
      (∀ k, k < i → env.persistErr k = none) → env.persistErr i = some e →
      i < players.length →
      (matchBody uid ename mid env st).2 =
          some ("Supabase upsert failed: " ++ e) ∧
        (matchBody uid ename mid env st).1.store =
          upsertAll st.store ((builtRecords uid ename mid cp 0 players).take i) ∧
        (matchBody uid ename mid env st).1.upserts =
          st.upserts ++ (players.take (i + 1)).map (fun p => (mid, p.name))) ∧
    (∀ (uid ename : String) (env : String → MatchEnv) (st : RunState)
        (mid e1 : String),
      (matchBody uid ename mid (env mid) st.ms).2 = some e1 →
      (processMatch uid ename env st mid).failed = st.failed + 1 ∧
      (processMatch uid ename env st mid).errors = st.errors ++ [errEntry mid e1]) ∧
    (∀ (uid ename : String) (env : String → MatchEnv) (mid : String)
        (mids : List String) (st : RunState),
      runLoop uid ename env (mid :: mids) st =
        runLoop uid ename env mids (processMatch uid ename env st mid)) := by
  refine ⟨?_, ?_, ?_⟩
  · intro uid ename mid env st players cp i e hr hc hpre hi hilen
    simp only [matchBody, hr, hc]
    have hres := processPlayers_persist_fail uid ename mid cp env.persistErr i e
      hpre hi players 0
      { st with fetches := st.fetches ++ ["players/" ++ mid] ++ ["counts/" ++ mid] }
      (Nat.zero_le i) (by omega)
    refine ⟨?_, ?_, ?_⟩
    · have h1 := hres.1
      simpa using h1
    · have h2 := hres.2.1
      simpa using h2
    · have h3 := hres.2.2
      simpa using h3
  · intro uid ename env st mid e1 hb
    rcases h2 : matchBody uid ename mid (env mid) st.ms with ⟨ms1, _ | e2⟩
    · rw [h2] at hb
      exact Option.noConfusion hb
    · rw [h2] at hb
      have he : e2 = e1 := Option.some.inj hb
      subst he
      constructor
      · simp [processMatch, h2]
      · simp [processMatch, h2]
  · intro uid ename env mid mids st
    rfl

theorem c3_persist_failure_amended_witness :
    envC3m.persistErr 1 = some "boom" ∧
    (1 : ℕ) < 2 ∧
    (matchBody "u" "e" "m" envC3m ⟨[], [], [], []⟩).2 =
      some ("Supabase upsert failed: " ++ "boom") :=
  ⟨rfl, by decide,
    (c3_persist_failure_amended.1 "u" "e" "m" envC3m ⟨[], [], [], []⟩
      [⟨"P1", 0, 1, 50, none⟩, ⟨"P2", 1, 1, 60, none⟩] ⟨[], [], []⟩ 1 "boom"
      rfl rfl
      (fun k hk => by
        have h0 : k = 0 := Nat.lt_one_iff.mp hk
        subst h0
        rfl)
      rfl (by decide)).1⟩

/-- C4: any exception raised while processing a single match is caught at
the match boundary (the failing match's state is kept, `failed` is
incremented, the error is recorded) and the loop continues with the next
match; in the 3-match run where match m2's roster fetch returns an HTTP
error, the summary reports total 3, successful 2, failed 1 with m2's error
entry, and the records of matches m1 and m3 are in the store. -/
theorem c4_match_boundary_isolation :
    (∀ (uid ename : String) (env : String → MatchEnv) (st : RunState)
        (mid e1 : String),
      (matchBody uid ename mid (env mid) st.ms).2 = some e1 →
      processMatch uid ename env st mid =
        { st with
          ms := (matchBody uid ename mid (env mid) st.ms).1
          failed := st.failed + 1
          errors := st.errors ++ [errEntry mid e1] }) ∧
    (∀ (uid ename : String) (env : String → MatchEnv) (mid : String)
        (mids : List String) (st : RunState),
      runLoop uid ename env (mid :: mids) st =
        runLoop uid ename env mids (processMatch uid ename env st mid)) ∧
    ((scrapeEvent "event/E" "E1" "u" env4 []).response =
        .success 3 2 1 2 [("P1", 1, 2), ("P3", 1, 1)]
          (some ["Match m2: Failed to fetch players data: 500"]) ∧
      (∃ r ∈ (scrapeEvent "event/E" "E1" "u" env4 []).state.store,
        r.match_id = "m1" ∧ r.name = "P1") ∧
      (∃ r ∈ (scrapeEvent "event/E" "E1" "u" env4 []).state.store,
        r.match_id = "m3" ∧ r.name = "P3")) := by
  refine ⟨?_, ?_, by decide, by decide, by decide⟩
  · intro uid ename env st mid e1 hb
    rcases h2 : matchBody uid ename mid (env mid) st.ms with ⟨ms1, _ | e2⟩
    · rw [h2] at hb
      exact Option.noConfusion hb
    · rw [h2] at hb
      have he : e2 = e1 := Option.some.inj hb
      subst he
      simp [processMatch, h2]
  · intro uid ename env mid mids st
    rfl

theorem c4_match_boundary_isolation_witness :
    (matchBody "u" "E1" "m2" (env4.matchEnvs "m2")
        (⟨⟨[], [], [], []⟩, 0, 0, []⟩ : RunState).ms).2 =
      some "Failed to fetch players data: 500" ∧
    processMatch "u" "E1" env4.matchEnvs ⟨⟨[], [], [], []⟩, 0, 0, []⟩ "m2" =
      { (⟨⟨[], [], [], []⟩, 0, 0, []⟩ : RunState) with
        ms := (matchBody "u" "E1" "m2" (env4.matchEnvs "m2")
          (⟨⟨[], [], [], []⟩, 0, 0, []⟩ : RunState).ms).1
        failed := (⟨⟨[], [], [], []⟩, 0, 0, []⟩ : RunState).failed + 1
        errors := (⟨⟨[], [], [], []⟩, 0, 0, []⟩ : RunState).errors ++
          [errEntry "m2" "Failed to fetch players data: 500"] } :=
  ⟨by decide,
    c4_match_boundary_isolation.1 "u" "E1" env4.matchEnvs
      ⟨⟨[], [], [], []⟩, 0, 0, []⟩ "m2" "Failed to fetch players data: 500"
      (by decide)⟩

/-- C5: running the pipeline twice against an unchanged environment leaves
the store exactly as after the first run (same records, same fields, no
duplicates); the nodup-keys invariant of the unique index is preserved, and
an upsert overwrites every field of the record at its key (the record
stored at the key is the new record itself) rather than merging fields. -/
theorem c5_idempotent_upsert :
    ∀ (url ename uid : String) (env : EventEnv) (s0 : List StatRecord),
      ((scrapeEvent url ename uid env
          ((scrapeEvent url ename uid env s0).state.store)).state.store =
        (scrapeEvent url ename uid env s0).state.store) ∧
      ((storeKeys s0).Nodup →
        (storeKeys (scrapeEvent url ename uid env s0).state.store).Nodup) ∧
      (∀ (s : List StatRecord) (r x : StatRecord),
        x ∈ upsert s r → keyOf x = keyOf r → x = r) ∧
      (∀ (s : List StatRecord) (r : StatRecord),
        keyOf r ∈ storeKeys (upsert s r)) := by
  intro url ename uid env s0
  refine ⟨?_, ?_, ?_, ?_⟩
  · rw [scrapeEvent_store, scrapeEvent_store]
    exact upsertAll_idem s0 (reachedRecords url ename uid env)
  · intro hnd
    rw [scrapeEvent_store]
    exact storeKeys_nodup_upsertAll _ s0 hnd
  · exact fun s r x hx hk => mem_upsert_key_eq hx hk
  · exact fun s r => key_mem_upsert s r

theorem c5_idempotent_upsert_witness :
    (storeKeys []).Nodup ∧
    ((scrapeEvent "event/E" "E1" "u" env4
        ((scrapeEvent "event/E" "E1" "u" env4 []).state.store)).state.store =
      (scrapeEvent "event/E" "E1" "u" env4 []).state.store) ∧
    (storeKeys (scrapeEvent "event/E" "E1" "u" env4 []).state.store).Nodup :=
  ⟨by decide,
    (c5_idempotent_upsert "event/E" "E1" "u" env4 []).1,
    (c5_idempotent_upsert "event/E" "E1" "u" env4 []).2.1 (by decide)⟩

/-- C6: when the event reference does not contain the event/<token> pattern,
or when discovery yields zero match identifiers, the run aborts with a
failure response before the match loop: the store is untouched and no
per-match fetch and no upsert attempt is made. -/
theorem c6_fatal_before_loop :
    ∀ (url ename uid : String) (env : EventEnv) (s0 : List StatRecord),
      (extractEventId url.data = none →
        (scrapeEvent url ename uid env s0).response.isFailure = true ∧
        (scrapeEvent url ename uid env s0).state = ⟨s0, [], [], []⟩) ∧
      (∀ secs, env.api2 = .ok secs → collectMatchIds secs = [] →
        (scrapeEvent url ename uid env s0).response.isFailure = true ∧
        (scrapeEvent url ename uid env s0).state = ⟨s0, [], [], []⟩) := by
  intro url ename uid env s0
  constructor
  · intro hex
    have hd : ∃ msg, discoverPhase url ename env = .error msg := by
      unfold discoverPhase
      split
      · exact ⟨_, rfl⟩
      · rw [hex]
        exact ⟨_, rfl⟩
    obtain ⟨msg, hd⟩ := hd
    rw [scrapeEvent_error hd]
    exact ⟨rfl, rfl⟩
  · intro secs hsecs hempty
    have hd : ∃ msg, discoverPhase url ename env = .error msg := by
      unfold discoverPhase
      split
      · exact ⟨_, rfl⟩
      · cases hex : extractEventId url.data with
        | none => exact ⟨_, rfl⟩
        | some tok =>
          rw [hsecs]
          refine ⟨"No matches found in event", ?_⟩
          simp [hempty]
    obtain ⟨msg, hd⟩ := hd
    rw [scrapeEvent_error hd]
    exact ⟨rfl, rfl⟩

theorem c6_fatal_before_loop_witness :
    (extractEventId "match/5".data = none ∧
      (scrapeEvent "match/5" "E1" "u" env4 []).response.isFailure = true ∧
      (scrapeEvent "match/5" "E1" "u" env4 []).state = ⟨[], [], [], []⟩) ∧
    (envEmpty.api2 = .ok secs0 ∧ collectMatchIds secs0 = [] ∧
      (scrapeEvent "event/E" "E1" "u" envEmpty []).response.isFailure = true ∧
      (scrapeEvent "event/E" "E1" "u" envEmpty []).state = ⟨[], [], [], []⟩) :=
  ⟨⟨by decide,
    (c6_fatal_before_loop "match/5" "E1" "u" env4 []).1 (by decide)⟩,
    ⟨rfl, by decide,
      (c6_fatal_before_loop "event/E" "E1" "u" envEmpty []).2 secs0 rfl (by decide)⟩⟩

/-- C7 counterexample: the errors list entries are flat strings of the form
"Match <id>: <message>", not {match_id, message} objects keyed by the match
identifier: in a run whose only match m2 fails with "boom", the single
entry is the string "Match m2: boom", and no decomposition of that string
as the identifier "m2" followed by ": " and a message exists. -/
theorem c7_counterexample :
    (scrapeEvent "event/E" "E1" "u" envC7 []).response =
      .success 1 0 1 0 [] (some ["Match m2: boom"]) ∧
    ¬ ∃ msg : String, "Match m2: boom" = "m2" ++ (": " ++ msg) := by
  constructor
  · decide
  · rintro ⟨msg, h⟩
    have h2 : ("m2" ++ (": " ++ msg)).data = "Match m2: boom".data :=
      congrArg String.data h.symm
    have h3 : ∀ s t : String, (s ++ t).data = s.data ++ t.data := fun s t => rfl
    rw [h3, h3] at h2
    have e2 : "m2".data = ['m', '2'] := rfl
    have e3 : ": ".data = [':', ' '] := rfl
    have e1 : "Match m2: boom".data =
      ['M', 'a', 't', 'c', 'h', ' ', 'm', '2', ':', ' ', 'b', 'o', 'o', 'm'] := rfl
    rw [e1, e2, e3] at h2
    simp at h2

/-- C7 (amended): the errors field of the run summary is present exactly
when at least one match failed (its length equals the failed count), and
each entry is the flat string "Match <id>: <message>" built from the failed
match's identifier and the thrown message — not a structured
{match_id, message} object. -/
theorem c7_errors_field_amended :
    (∀ (url ename uid : String) (env : EventEnv) (s0 : List StatRecord)
        (tm s f tp : ℕ) (pl : List (String × ℕ × ℕ)) (er : Option (List String)),
      (scrapeEvent url ename uid env s0).response = .success tm s f tp pl er →
      ((er = none ↔ f = 0) ∧
        ∀ l, er = some l → l ≠ [] ∧ l.length = f ∧
          ∀ e ∈ l, ∃ mid msg, e = errEntry mid msg)) ∧
    (∀ (uid ename : String) (env : String → MatchEnv) (st : RunState)
        (mid e1 : String),
      (matchBody uid ename mid (env mid) st.ms).2 = some e1 →
      (processMatch uid ename env st mid).errors =
        st.errors ++ [errEntry mid e1]) := by
  constructor
  · intro url ename uid env s0 tm s f tp pl er hresp
    rcases hd : discoverPhase url ename env with msg | mids
    · simp only [scrapeEvent, hd] at hresp
      exact ScrapeResponse.noConfusion hresp
    · simp only [scrapeEvent, hd, ScrapeResponse.success.injEq] at hresp
      obtain ⟨htm, hs, hf, htp, hpl, her⟩ := hresp
      have hlen : (runLoop uid ename env.matchEnvs mids
          ⟨⟨s0, [], [], []⟩, 0, 0, []⟩).errors.length =
          (runLoop uid ename env.matchEnvs mids
            ⟨⟨s0, [], [], []⟩, 0, 0, []⟩).failed := by
        have := runLoop_errlen uid ename env.matchEnvs mids
          ⟨⟨s0, [], [], []⟩, 0, 0, []⟩
        simpa using this
      subst hf
      constructor
      · by_cases hemp : (runLoop uid ename env.matchEnvs mids
            ⟨⟨s0, [], [], []⟩, 0, 0, []⟩).errors = []
        · rw [← her, if_pos hemp]
          simp only [eq_self_iff_true, true_iff]
          rw [← hlen, hemp]
          rfl
        · rw [← her, if_neg hemp]
          constructor
          · intro h
            exact Option.noConfusion h
          · intro hf0
            exfalso
            apply hemp
            have : (runLoop uid ename env.matchEnvs mids
                ⟨⟨s0, [], [], []⟩, 0, 0, []⟩).errors.length = 0 := by omega
            exact List.length_eq_zero.mp this
      · intro l hl
        rw [← her] at hl
        by_cases hemp : (runLoop uid ename env.matchEnvs mids
            ⟨⟨s0, [], [], []⟩, 0, 0, []⟩).errors = []
        · rw [if_pos hemp] at hl
          exact Option.noConfusion hl
        · rw [if_neg hemp] at hl
          have hle : (runLoop uid ename env.matchEnvs mids
              ⟨⟨s0, [], [], []⟩, 0, 0, []⟩).errors = l := Option.some.inj hl
          refine ⟨hle ▸ hemp, by rw [← hle]; exact hlen, ?_⟩
          intro e he
          rcases runLoop_errors_shape uid ename env.matchEnvs mids
              ⟨⟨s0, [], [], []⟩, 0, 0, []⟩ e (hle ▸ he) with h0 | ⟨mid, _, msg, hm⟩
          · simp at h0
          · exact ⟨mid, msg, hm⟩
  · intro uid ename env st mid e1 hb
    rcases h2 : matchBody uid ename mid (env mid) st.ms with ⟨ms1, _ | e2⟩
    · rw [h2] at hb
      exact Option.noConfusion hb
    · rw [h2] at hb
      have he : e2 = e1 := Option.some.inj hb
      subst he
      simp [processMatch, h2]

theorem c7_errors_field_amended_witness :
    ((some ["Match m2: Failed to fetch players data: 500"] =
        (none : Option (List String))) ↔ (1 : ℕ) = 0) ∧
    (∀ l, some ["Match m2: Failed to fetch players data: 500"] = some l →
      l ≠ [] ∧ l.length = 1 ∧ ∀ e ∈ l, ∃ mid msg, e = errEntry mid msg) :=
  c7_errors_field_amended.1 "event/E" "E1" "u" env4 [] 3 2 1 2
    [("P1", 1, 2), ("P3", 1, 1)]
    (some ["Match m2: Failed to fetch players data: 500"]) (by decide)

/-- C8 counterexample: when first_nine[i].average is present with value 0,
the built record's first_nine_avg is null (JS `0 || null`), not the present
value 0 the claim asserts. -/
theorem c8_counterexample :
    (buildRecord "u" "e" "m" ⟨"P", 0, 0, 0, none⟩ ⟨some 0⟩ CheckoutData.empty
      []).first_nine_avg = none ∧
    (buildRecord "u" "e" "m" ⟨"P", 0, 0, 0, none⟩ ⟨some 0⟩ CheckoutData.empty
      []).first_nine_avg ≠ some 0 :=
  ⟨rfl, by decide⟩

/-- C8 (amended): first_nine_avg equals first_nine[i].average whenever that
value is present and non-zero, and is null when the value is absent — but a
present value of 0 is also mapped to null by the `|| null` fallback; the
field is never defaulted to 0. -/
theorem c8_first_nine_amended :
    ∀ (uid ename mid : String) (p : RosterEntry) (fns : FirstNineStats)
      (cd : CheckoutData) (d : ScoreDist),
      (fns.average = none →
        (buildRecord uid ename mid p fns cd d).first_nine_avg = none) ∧
      (∀ a : ℚ, fns.average = some a → a ≠ 0 →
        (buildRecord uid ename mid p fns cd d).first_nine_avg = some a) ∧
      (fns.average = some 0 →
        (buildRecord uid ename mid p fns cd d).first_nine_avg = none) := by
  intro uid ename mid p fns cd d
  refine ⟨?_, ?_, ?_⟩
  · intro h
    show jsOrNullQ fns.average = none
    rw [h]
    rfl
  · intro a ha hne
    show jsOrNullQ fns.average = some a
    rw [ha]
    simp [jsOrNullQ, hne]
  · intro h
    show jsOrNullQ fns.average = none
    rw [h]
    simp [jsOrNullQ]

theorem c8_first_nine_amended_witness :
    ((buildRecord "u" "e" "m" ⟨"P", 0, 0, 0, none⟩ ⟨none⟩ CheckoutData.empty
      []).first_nine_avg = none) ∧
    ((buildRecord "u" "e" "m" ⟨"P", 0, 0, 0, none⟩ ⟨some 30⟩ CheckoutData.empty
      []).first_nine_avg = some 30) ∧
    ((buildRecord "u" "e" "m" ⟨"P", 0, 0, 0, none⟩ ⟨some 0⟩ CheckoutData.empty
      []).first_nine_avg = none) :=
  ⟨(c8_first_nine_amended "u" "e" "m" ⟨"P", 0, 0, 0, none⟩ ⟨none⟩
      CheckoutData.empty []).1 rfl,
    (c8_first_nine_amended "u" "e" "m" ⟨"P", 0, 0, 0, none⟩ ⟨some 30⟩
      CheckoutData.empty []).2.1 30 rfl (by norm_num),
    (c8_first_nine_amended "u" "e" "m" ⟨"P", 0, 0, 0, none⟩ ⟨some 0⟩
      CheckoutData.empty []).2.2 rfl⟩

/-- C9: the AggregationReader's weighted_average is
Σ(average_i × legs_played_i) / Σ(legs_played_i) over a player's matching
records — records (80, 5 legs) and (90, 10 legs) give 260/3 = 86.666… —
and the leaderboard lists players in descending order of the weighted
average with ranks 1..n assigned in that order. -/
theorem c9_weighted_average_ranking :
    weighted_average [((80 : ℚ), (5 : ℕ)), (90, 10)] = 260 / 3 ∧
    (∀ recs : List (ℚ × ℕ),
      (recs.map (fun r => ((r.2 : ℚ)))).sum ≠ 0 →
      weighted_average recs * (recs.map (fun r => ((r.2 : ℚ)))).sum =
        (recs.map (fun r => r.1 * (r.2 : ℚ))).sum) ∧
    (∀ ps : List AggPlayer, List.Sorted descRel ((leaderboard ps).map Prod.snd)) ∧
    (∀ ps : List AggPlayer, (leaderboard ps).map Prod.fst =
      List.range' 1 ps.length) := by
  refine ⟨?_, ?_, ?_, ?_⟩
  · norm_num [weighted_average]
  · intro recs h
    unfold weighted_average
    exact div_mul_cancel₀ _ h
  · intro ps
    have h1 : (leaderboard ps).map Prod.snd = ps.insertionSort descRel := by
      rw [leaderboard, List.map_map]
      have h2 : (Prod.snd ∘ fun ip : ℕ × AggPlayer => (ip.1 + 1, ip.2)) =
        Prod.snd := rfl
      rw [h2]
      exact enumFrom_map_snd (ps.insertionSort descRel) 0
    rw [h1]
    exact List.sorted_insertionSort descRel ps
  · intro ps
    rw [leaderboard, List.map_map]
    have h2 : (Prod.fst ∘ fun ip : ℕ × AggPlayer => (ip.1 + 1, ip.2)) =
      fun ip : ℕ × AggPlayer => ip.1 + 1 := rfl
    rw [h2]
    have h3 := enumFrom_map_fst_add_one (ps.insertionSort descRel) 0
    rw [show ((ps.insertionSort descRel).enum) =
      ((ps.insertionSort descRel).enumFrom 0) from rfl, h3,
      List.length_insertionSort]

theorem c9_weighted_average_ranking_witness :
    (([((80 : ℚ), (5 : ℕ)), (90, 10)].map (fun r => ((r.2 : ℚ)))).sum ≠ 0) ∧
    weighted_average [((80 : ℚ), (5 : ℕ)), (90, 10)] *
        ([((80 : ℚ), (5 : ℕ)), (90, 10)].map (fun r => ((r.2 : ℚ)))).sum =
      ([((80 : ℚ), (5 : ℕ)), (90, 10)].map (fun r => r.1 * (r.2 : ℚ))).sum :=
  ⟨by norm_num,
    c9_weighted_average_ranking.2.1 [((80 : ℚ), (5 : ℕ)), (90, 10)] (by norm_num)⟩

/-- C10: whenever the run reaches the per-match loop and returns a summary,
each discovered match identifier is counted exactly once as successful or
failed, so successful + failed = total_matches. -/
theorem c10_counters_partition :
    ∀ (url ename uid : String) (env : EventEnv) (s0 : List StatRecord)
      (tm s f tp : ℕ) (pl : List (String × ℕ × ℕ)) (er : Option (List String)),
      (scrapeEvent url ename uid env s0).response = .success tm s f tp pl er →
      s + f = tm := by
  intro url ename uid env s0 tm s f tp pl er hresp
  rcases hd : discoverPhase url ename env with msg | mids
  · simp only [scrapeEvent, hd] at hresp
    exact ScrapeResponse.noConfusion hresp
  · simp only [scrapeEvent, hd, ScrapeResponse.success.injEq] at hresp
    obtain ⟨htm, hs, hf, _, _, _⟩ := hresp
    have hc := runLoop_counts uid ename env.matchEnvs mids
      ⟨⟨s0, [], [], []⟩, 0, 0, []⟩
    simp only [List.length_nil] at hc
    omega

theorem c10_counters_partition_witness :
    (scrapeEvent "event/E" "E1" "u" env4 []).response =
      .success 3 2 1 2 [("P1", 1, 2), ("P3", 1, 1)]
        (some ["Match m2: Failed to fetch players data: 500"]) ∧
    (2 : ℕ) + 1 = 3 :=
  ⟨by decide,
    c10_counters_partition "event/E" "E1" "u" env4 [] 3 2 1 2
      [("P1", 1, 2), ("P3", 1, 1)]
      (some ["Match m2: Failed to fetch players data: 500"]) (by decide)⟩

